import Mathlib

/-!
Verification of the dungeon-downloader synchronization core
(`dungeondownloader/dd.py`, `dungeondownloader/hashing.py`) against its
specification.  Pure Python functions are embedded as Lean functions;
filesystem, network, the external hashing tool and the interactive prompt
are passed in explicitly as oracles; Python dictionaries (which preserve
insertion order) are embedded as ordered association lists.
-/

namespace DD

/-! ## Ordered dictionaries (Python `dict` with insertion order) -/

/-- Key lookup in an insertion-ordered association list: first binding
wins (keys are unique when the list is built through `ainsert`). -/
def alookup {α : Type} : List (String × α) → String → Option α
  | [], _ => none
  | (a, b) :: t, k => if a = k then some b else alookup t k

/-- Python `k in d`. -/
def amem {α : Type} (m : List (String × α)) (k : String) : Bool :=
  (alookup m k).isSome

/-- Python `d[k] = v`: overwrite in place when the key exists, otherwise
append at the end (insertion order). -/
def ainsert {α : Type} (m : List (String × α)) (k : String) (v : α) :
    List (String × α) :=
  if amem m k then m.map (fun p => if p.1 = k then (k, v) else p)
  else m ++ [(k, v)]

/-- A Python `dict[str, str]` (`hash_dict` in `config_dict.py`), as an
insertion-ordered association list. -/
abbrev HashDict := List (String × String)

abbrev dlookup (m : HashDict) (k : String) : Option String := alookup m k

abbrev dmem (m : HashDict) (k : String) : Bool := amem m k

abbrev dinsert (m : HashDict) (k v : String) : HashDict := ainsert m k v

/-! ## POSIX paths (`pathlib.Path`)

`pathlib.PurePosixPath` normalizes a path string: repeated and trailing
separators and `.` components are dropped, the empty path renders as `.`.
We model a path by its normalized string rendering. -/

/-- Single-character splitting of a character list (the general
`str.split(sep)` used by the code always has a one-character
separator). -/
def chSplit (sep : Char) : List Char → List (List Char)
  | [] => [[]]
  | c :: t =>
    if c = sep then [] :: chSplit sep t
    else
      match chSplit sep t with
      | [] => [[c]]
      | g :: gs => (c :: g) :: gs

/-- Python `s.split(sep)` for a one-character separator. -/
def pySplit (sep : Char) (s : String) : List String :=
  (chSplit sep s.data).map (fun l => String.mk l)

/-- Does the string start with a path separator? (`s.startswith("/")`.) -/
def startsWithSlash (s : String) : Bool :=
  match s.data with
  | c :: _ => c = '/'
  | [] => false

/-- `str(Path(s))` for a POSIX path string `s`. -/
def normalizePath (s : String) : String :=
  let segs := (pySplit '/' s).filter (fun t => !(decide (t = "" ∨ t = ".")))
  let body := String.intercalate "/" segs
  if startsWithSlash s then "/" ++ body
  else if body = "" then "." else body

/-- `str(Path(root).joinpath(child))`: an absolute child replaces the root
(pathlib semantics), otherwise the components are concatenated. -/
def joinPath (root child : String) : String :=
  let r := normalizePath root
  let c := normalizePath child
  if startsWithSlash c then c
  else if c = "." then r
  else if r = "/" then "/" ++ c
  else if r = "." then c
  else r ++ "/" ++ c

/-! ## Manifest entries (`patch_file.PatchFile`) and the manifest reader -/

/-- A `PatchFile` dict as built by `read_patchlist` (before path/URL
resolution): required keys `path`, `url`, `hash`, `size`. -/
structure Entry where
  path : String
  url : String
  hash : String
  size : Int
deriving DecidableEq, Repr

/-- A `PatchFile` after `calc_full_paths` populated `full_path`. -/
structure REntry where
  path : String
  url : String
  hash : String
  size : Int
  full_path : String
deriving DecidableEq, Repr

/-- Strip surrounding whitespace from a character list. -/
def pyStrip (l : List Char) : List Char :=
  ((l.dropWhile Char.isWhitespace).reverse.dropWhile Char.isWhitespace).reverse

/-- Accumulate decimal digits; any non-digit character fails. -/
def digitsToNat : List Char → Nat → Option Nat
  | [], acc => some acc
  | c :: t, acc =>
    if c.isDigit then digitsToNat t (acc * 10 + (c.toNat - 48)) else none

/-- Python `int(s)`: surrounding whitespace and one sign are tolerated,
a parse failure raises `ValueError` (modelled by `none`). -/
def pyInt? (s : String) : Option Int :=
  match pyStrip s.data with
  | [] => none
  | '-' :: rest =>
    match rest with
    | [] => none
    | _ => (digitsToNat rest 0).map (fun n => -(n : Int))
  | '+' :: rest =>
    match rest with
    | [] => none
    | _ => (digitsToNat rest 0).map (fun n => (n : Int))
  | cs => (digitsToNat cs 0).map (fun n => (n : Int))

/-- `i.decode().replace("\\", "/")` (dd.py line 89). -/
def replaceBackslash (s : String) : String :=
  String.mk (s.data.map (fun c => if c = '\\' then '/' else c))

/-- Lines of the manifest split on commas after backslash conversion,
restricted to those with exactly 3 fields (dd.py lines 87-91). -/
def parsedLines (content : String) : List (List String) :=
  ((pySplit '\n' content).map (fun l => pySplit ',' (replaceBackslash l))).filter
    (fun i => i.length == 3)

/-- One `PatchFile` from a kept line (dd.py lines 94-99): the path is the
token with its first character dropped (`i[0][1:]`) then normalized by
`Path`; the URL is the token as-is; `int(i[2])` may fail. -/
def mkEntry (i : List String) : Option Entry :=
  match i with
  | [p, h, sz] =>
    (pyInt? sz).map (fun n =>
      { path := normalizePath (String.mk (p.data.drop 1)), url := p, hash := h, size := n })
  | _ => none

/-- The loop of dd.py lines 92-100; the first `ValueError` aborts. -/
def buildEntries : List (List String) → Option (List Entry)
  | [] => some []
  | i :: t =>
    match mkEntry i with
    | none => none
    | some e => (buildEntries t).map (e :: ·)

/-- `read_patchlist` applied to the fetched manifest body (dd.py 81-101);
`.error` models the uncaught `ValueError` of `int(i[2])`. -/
def read_patchlist (content : String) : Except Unit (List Entry) :=
  match buildEntries (parsedLines content) with
  | none => .error ()
  | some es => .ok es

/-! ## Filesystem model -/

/-- State of one on-disk file: its byte size and the digest of its
content. -/
structure FSEntry where
  size : Int
  hash : String
deriving DecidableEq, Repr

/-- The filesystem: existing files with their state. -/
abbrev FS := List (String × FSEntry)

abbrev fsLookup (fs : FS) (p : String) : Option FSEntry := alookup fs p

/-- `Path.exists()`. -/
abbrev fsExists (fs : FS) (p : String) : Bool := amem fs p

/-- Writing a file (creating or replacing it). -/
abbrev fsWrite (fs : FS) (p : String) (e : FSEntry) : FS := ainsert fs p e

/-- `Path.unlink()`. -/
def fsUnlink (fs : FS) (p : String) : FS :=
  fs.filter (fun q => !(decide (q.1 = p)))

/-- The sha256 digest of the current content of `p` (what the portable
streaming hasher `_get_sha256_hash_generic` computes for an existing
file). -/
def fsHash (fs : FS) (p : String) : String :=
  match fsLookup fs p with
  | some e => e.hash
  | none => ""

/-- `calc_full_paths` (dd.py 161-163): enrich every entry with
`root_dir.joinpath(file["path"])`. -/
def calc_full_paths (root_dir : String) (files : List Entry) : List REntry :=
  files.map (fun f =>
    { path := f.path, url := f.url, hash := f.hash, size := f.size,
      full_path := joinPath root_dir f.path })

/-! ## Content hasher (`hashing.py`)

The external `sha256sum` tool is an oracle giving, per file path, the
stderr lines and the string `str(result.stdout.readlines())` that the
code parses.  The portable implementation is the content-digest oracle
`hasher` (for files on disk, `fsHash`). -/

/-- Exceptions `get_sha256_hash` can observe: `ChildProcessError`
(raised at hashing.py 94-95, caught at line 51) and the `IndexError` of
`output[1]` at line 97 (never caught). -/
inductive HashErr
  | childProcess
  | indexError
deriving DecidableEq, Repr

/-- Split a character list at the first occurrence of `sep`. -/
def chSplitOnce (sep : Char) : List Char → List Char × Option (List Char)
  | [] => ([], none)
  | c :: t =>
    if c = sep then ([], some t)
    else
      let r := chSplitOnce sep t
      (c :: r.1, r.2)

/-- Python `s.split(" ", 1)`. -/
def pySplit1 (s : String) : List String :=
  match chSplitOnce ' ' s.data with
  | (a, none) => [String.mk a]
  | (a, some b) => [String.mk a, String.mk b]

/-- Python `s[1:-4]` (clamped, as Python slices are). -/
def pySlice1m4 (s : String) : String :=
  let t := s.data.drop 1
  String.mk (t.take (t.length - 4))

/-- One iteration of the `_sha256sum` result loop (hashing.py 92-97):
any stderr output raises `ChildProcessError`; otherwise the stdout repr
is split at the first space, `output[1]` raising `IndexError` when there
is none, and `results[output[1][1:-4]] = output[0][3:]`. -/
def sha256sumStep (tool : String → List String × String) (m : HashDict) (p : String) :
    Except HashErr HashDict :=
  let r := tool p
  if r.1 ≠ [] then .error .childProcess
  else
    match pySplit1 r.2 with
    | [o0, o1] => .ok (dinsert m (pySlice1m4 o1) (String.mk (o0.data.drop 3)))
    | _ => .error .indexError

/-- `Hashing._sha256sum` (hashing.py 72-98): results are consumed in
input order (`pool.imap` preserves it); the first exception propagates. -/
def sha256sum (tool : String → List String × String) :
    List String → HashDict → Except HashErr HashDict
  | [], m => .ok m
  | p :: t, m =>
    match sha256sumStep tool m p with
    | .error e => .error e
    | .ok m' => sha256sum tool t m'

/-- `Hashing._get_sha256_hash_generic` (hashing.py 56-70) over a
content-digest oracle: a dict keyed by each input path. -/
def hasherDict (hasher : String → String) (files : List String) : HashDict :=
  files.foldl (fun m p => dinsert m p (hasher p)) []

/-- `Hashing.get_sha256_hash` (hashing.py 17-54): Darwin/Linux use the
`sha256sum` tool, any other platform the portable implementation; only
`ChildProcessError` is caught and triggers the whole-batch fallback. -/
def get_sha256_hash (system : String) (tool : String → List String × String)
    (hasher : String → String) (files : List String) : Except HashErr HashDict :=
  if system = "Darwin" ∨ system = "Linux" then
    match sha256sum tool files [] with
    | .ok m => .ok m
    | .error .childProcess => .ok (hasherDict hasher files)
    | .error .indexError => .error .indexError
  else .ok (hasherDict hasher files)

/-- The portable hasher applied to files on disk; in `check_files` and
`update_invalid_files` both hashing strategies return the content digest
keyed by path, so the batch hash is modelled by this oracle. -/
def hasherDictFS (fs : FS) (paths : List String) : HashDict :=
  paths.foldl (fun m p => dinsert m p (fsHash fs p)) []

/-! ## Staleness detector (`check_files`, dd.py 104-158) -/

/-- Step 1 (dd.py 135-141): files missing on disk or with a wrong
on-disk size, in manifest order. -/
def step1Invalid (fs : FS) (files : List REntry) : List REntry :=
  files.filter (fun f =>
    match fsLookup fs f.full_path with
    | none => true
    | some d => decide (d.size ≠ f.size))

/-- The paths handed to the hasher when `validate` is set (dd.py 146):
every file not already in `invalid`. -/
def validateTargets (fs : FS) (files : List REntry) : List String :=
  (files.filter (fun f => !(decide (f ∈ step1Invalid fs files)))).map (·.full_path)

/-- The seeding loop (dd.py 148-151): any file whose resolved path has no
cache entry gets one from the manifest's expected hash. -/
def seedAll (hashes : HashDict) (files : List REntry) : HashDict :=
  files.foldl
    (fun m f => if dmem m f.full_path then m else m ++ [(f.full_path, f.hash)])
    hashes

/-- The comparison loop (dd.py 153-156): every file (step-1 flagged ones
included) whose cache value differs from its expected hash. -/
def cacheInvalid (hashes : HashDict) (files : List REntry) : List REntry :=
  files.filter (fun f => !(decide (dlookup hashes f.full_path = some f.hash)))

/-- `check_files` (dd.py 104-158). -/
def check_files (fs : FS) (files : List REntry) (validate : Bool)
    (hashes0 : Option HashDict) : List REntry × HashDict :=
  let hashes := hashes0.getD []
  let invalid1 := step1Invalid fs files
  let hashes1 := if validate then hasherDictFS fs (validateTargets fs files) else hashes
  let hashes2 := seedAll hashes1 files
  (invalid1 ++ cacheInvalid hashes2 files, hashes2)

/-! ## Confirmation prompt and redundant-file reconciler -/

/-- Python `str.lower()` (character-wise lowering). -/
def pyLower (s : String) : String := String.mk (s.data.map Char.toLower)

/-- `confirm` (dd.py 20-40) driven by the operator's typed lines:
`none` models the `while True` loop never receiving a valid answer
(or blocking forever on `input`). -/
def confirmRun (default : Option Bool) : List String → Option Bool
  | [] => none
  | c :: rest =>
    let d := default.getD true
    let c := pyLower c
    if c = "" then some d
    else if c = "yes" ∨ c = "y" ∨ c = "ye" then some true
    else if c = "no" ∨ c = "n" then some false
    else confirmRun default rest

/-- The deletion candidates (dd.py 205-209): cache keys, in insertion
order, whose path is not a resolved local path of any manifest entry. -/
def deleteList (hashes : HashDict) (patch_files : List REntry) : List String :=
  (hashes.map (·.1)).filter
    (fun h => !(decide (h ∈ patch_files.map (·.full_path))))

/-- `remove_redundant_files` (dd.py 192-235).  Returns `none` when the
confirmation prompt blocks forever, otherwise the function's return value
(`Option` of the targeted paths) together with the filesystem after the
unlinks.  The cache dictionary is never written. -/
def remove_redundant_files (hashes : HashDict) (patch_files : List REntry)
    (responses : List String) (fs : FS) : Option (Option (List String) × FS) :=
  let delete_list := deleteList hashes patch_files
  if delete_list = [] then some (none, fs)
  else
    let proceed : Option Bool :=
      if delete_list.length > 10 then confirmRun (some false) responses
      else some true
    match proceed with
    | none => none
    | some false => some (none, fs)
    | some true =>
      let delete_path := delete_list.map normalizePath
      let existent := delete_path.filter (fun p => fsExists fs p)
      let fs' := existent.foldl fsUnlink fs
      some (some delete_list, fs')

/-! ## Download orchestrator (`download`, `update_files`, dd.py 43-66 and
171-189)

The network is an oracle from full URL to the downloaded file state
(`.error` models an exception raised by `requests.get`/`iter_content`).
`ThreadPool(4).map` distributes the task list in chunks of size
`ceil(n / 16)`; an exception aborts the remaining tasks of its own chunk
only, every chunk is processed, and `map` re-raises the exception after
all chunks finished.  With entries whose resolved paths are distinct the
final filesystem does not depend on the interleaving, so chunks are
composed sequentially here. -/

/-- `ceil(n / (4 workers * 4))`, the chunk size `Pool.map` computes. -/
def chunkSizeFor (n : Nat) : Nat :=
  if n = 0 then 0 else n / 16 + (if n % 16 = 0 then 0 else 1)

/-- Split a list into chunks of size `k` (fuel-driven). -/
def chunkListAux (k : Nat) : Nat → List REntry → List (List REntry)
  | 0, _ => []
  | _, [] => []
  | fuel + 1, l => l.take k :: chunkListAux k fuel (l.drop k)

/-- `download` / `download_patch` (dd.py 43-78) of every task of one
chunk, in order; the first exception skips the chunk's remaining tasks.
The full URL of an entry is `patch_root + url` (`calc_full_urls`,
dd.py 166-168). -/
def runChunk (net : String → Except Unit FSEntry) (patch_root : String) :
    FS → List REntry → FS × Bool
  | fs, [] => (fs, false)
  | fs, f :: t =>
    match net (patch_root ++ f.url) with
    | .error _ => (fs, true)
    | .ok d => runChunk net patch_root (fsWrite fs f.full_path d) t

/-- `update_files` (dd.py 171-189): the written filesystem, and whether
some download raised (in which case `Pool.map` re-raises after the
batch). -/
def update_files (net : String → Except Unit FSEntry) (patch_root : String)
    (fs : FS) (files : List REntry) : FS × Bool :=
  (chunkListAux (chunkSizeFor files.length) files.length files).foldl
    (fun acc c =>
      let r := runChunk net patch_root acc.1 c
      (r.1, acc.2 || r.2))
    (fs, false)

/-- `update_invalid_files` (dd.py 247-264): download the invalid files,
then re-hash them; a download exception propagates before the re-hash.
The hash-mismatch check afterwards only logs (dd.py 258-263). -/
def update_invalid_files (net : String → Except Unit FSEntry) (fs : FS)
    (invalid_patch_files : List REntry) (patch_root : String) :
    FS × Except Unit HashDict :=
  let r := update_files net patch_root fs invalid_patch_files
  if r.2 then (r.1, .error ())
  else (r.1, .ok (hasherDictFS r.1 (invalid_patch_files.map (·.full_path))))

/-! ## Sync coordinator (`check_maintenence`, `main`, dd.py 238-333) -/

/-- `check_maintenence` (dd.py 238-244) applied to the status code of the
GET on `root_domain + "/MaintenanceLock.lck"`. -/
def check_maintenence (status : Nat) : Bool :=
  status == 200

/-- The external world one run of `main` interacts with. -/
structure World where
  maintenanceStatus : Nat
  manifest : String
  fs : FS
  net : String → Except Unit FSEntry
  responses : List String

/-- Exceptions that can escape `main`. -/
inductive MainErr
  | parseErr
  | downloadErr
  | promptBlocked
deriving DecidableEq, Repr

/-- Observable outcome of one run of `main`: its return value (or the
escaped exception in `err`), the final filesystem, the caller's cache
dict after the run (mutated in place only when one was passed and
`validate` was false), and whether the manifest was fetched. -/
structure MainRes where
  newFiles : Option HashDict
  deletedFiles : Option HashDict
  err : Option MainErr
  fs : FS
  cacheAfter : Option HashDict
  manifestFetched : Bool
deriving DecidableEq, Repr

/-- The tail of `main` (dd.py 327-333).  The Python reads
`if deleted_files is not None:` — `deleted_files` is still the `None` it
was initialised to at line 299, so the branch never runs; the dead
branch is transcribed as written. -/
def mainFinish (w : World) (pfr : List REntry) (hashes1 : HashDict)
    (cacheAfter : Option HashDict) (remove : Bool) (fs : FS)
    (new_files : Option HashDict) : MainRes :=
  if remove then
    match remove_redundant_files hashes1 pfr w.responses fs with
    | none =>
      { newFiles := none, deletedFiles := none, err := some .promptBlocked,
        fs := fs, cacheAfter := cacheAfter, manifestFetched := true }
    | some (deleted, fs2) =>
      let deleted_files : Option HashDict := none
      let deleted_files :=
        if deleted_files.isSome then
          some ((deleted.getD []).map (fun i => (i, (dlookup hashes1 i).getD "")))
        else deleted_files
      { newFiles := new_files, deletedFiles := deleted_files, err := none,
        fs := fs2, cacheAfter := cacheAfter, manifestFetched := true }
  else
    { newFiles := new_files, deletedFiles := none, err := none,
      fs := fs, cacheAfter := cacheAfter, manifestFetched := true }

/-- `main` (dd.py 267-333). -/
def main (w : World) (root_domain output_dir : String) (validate : Bool)
    (hashes : Option HashDict) (remove_files : Option Bool) : MainRes :=
  let remove := remove_files.getD false
  if check_maintenence w.maintenanceStatus then
    { newFiles := none, deletedFiles := none, err := none, fs := w.fs,
      cacheAfter := hashes, manifestFetched := false }
  else
    let patch_root := root_domain ++ "/Patch"
    match read_patchlist w.manifest with
    | .error _ =>
      { newFiles := none, deletedFiles := none, err := some .parseErr, fs := w.fs,
        cacheAfter := hashes, manifestFetched := true }
    | .ok pf =>
      let pfr := calc_full_paths output_dir pf
      let r := check_files w.fs pfr validate hashes
      let cacheAfter : Option HashDict :=
        if hashes.isSome ∧ validate = false then some r.2 else hashes
      if r.1 ≠ [] then
        match update_invalid_files w.net w.fs r.1 patch_root with
        | (fs', .error _) =>
          { newFiles := none, deletedFiles := none, err := some .downloadErr,
            fs := fs', cacheAfter := cacheAfter, manifestFetched := true }
        | (fs', .ok nh) => mainFinish w pfr r.2 cacheAfter remove fs' (some nh)
      else mainFinish w pfr r.2 cacheAfter remove w.fs none

/-! ## Association-list lemmas -/

theorem alookup_append_some {α : Type} {m : List (String × α)} {k : String} {v : α}
    (n : List (String × α)) (h : alookup m k = some v) :
    alookup (m ++ n) k = some v := by
  induction m with
  | nil => simp [alookup] at h
  | cons a t ih =>
    obtain ⟨a1, a2⟩ := a
    by_cases hk : a1 = k
    · simpa [alookup, hk] using h
    · simp only [alookup, hk, if_false, List.cons_append] at h ⊢
      exact ih h

theorem alookup_append_none {α : Type} {m : List (String × α)} {k : String}
    (n : List (String × α)) (h : alookup m k = none) :
    alookup (m ++ n) k = alookup n k := by
  induction m with
  | nil => simp
  | cons a t ih =>
    obtain ⟨a1, a2⟩ := a
    by_cases hk : a1 = k
    · simp [alookup, hk] at h
    · simp only [alookup, hk, if_false, List.cons_append] at h ⊢
      exact ih h

theorem amem_append_left {α : Type} {m : List (String × α)} {k : String}
    (n : List (String × α)) (h : amem m k = true) :
    amem (m ++ n) k = true := by
  unfold amem at h ⊢
  obtain ⟨v, hv⟩ := Option.isSome_iff_exists.mp h
  rw [alookup_append_some n hv]
  rfl

theorem alookup_of_amem {α : Type} {m : List (String × α)} {k : String}
    (h : amem m k = true) : ∃ v, alookup m k = some v :=
  Option.isSome_iff_exists.mp h

theorem alookup_of_not_amem {α : Type} {m : List (String × α)} {k : String}
    (h : amem m k = false) : alookup m k = none := by
  unfold amem at h
  exact Option.not_isSome_iff_eq_none.mp (by simp [h])

theorem alookup_map_replace {α : Type} (m : List (String × α)) (k p : String) (v : α)
    (h : k ≠ p) :
    alookup (m.map (fun q => if q.1 = k then (k, v) else q)) p = alookup m p := by
  induction m with
  | nil => simp
  | cons a t ih =>
    obtain ⟨a1, a2⟩ := a
    simp only [List.map_cons]
    by_cases hk : a1 = k
    · rw [if_pos (show ((a1, a2) : String × α).1 = k from hk)]
      subst hk
      show (if a1 = p then some v else _) = if a1 = p then some a2 else _
      rw [if_neg h, if_neg h]
      exact ih
    · rw [if_neg (show ¬ ((a1, a2) : String × α).1 = k from hk)]
      show (if a1 = p then some a2 else _) = if a1 = p then some a2 else _
      by_cases hp : a1 = p
      · rw [if_pos hp, if_pos hp]
      · rw [if_neg hp, if_neg hp]
        exact ih

theorem alookup_map_replace_self {α : Type} (m : List (String × α)) (k : String) (v : α)
    (h : amem m k = true) :
    alookup (m.map (fun q => if q.1 = k then (k, v) else q)) k = some v := by
  induction m with
  | nil => simp [amem, alookup] at h
  | cons a t ih =>
    obtain ⟨a1, a2⟩ := a
    simp only [List.map_cons]
    by_cases hk : a1 = k
    · rw [if_pos (show ((a1, a2) : String × α).1 = k from hk)]
      show (if k = k then some v else _) = some v
      rw [if_pos rfl]
    · rw [if_neg (show ¬ ((a1, a2) : String × α).1 = k from hk)]
      show (if a1 = k then some a2 else _) = some v
      rw [if_neg hk]
      exact ih (by simpa [amem, alookup, hk] using h)

theorem ainsert_lookup_self {α : Type} (m : List (String × α)) (k : String) (v : α) :
    alookup (ainsert m k v) k = some v := by
  unfold ainsert
  by_cases h : amem m k = true
  · rw [if_pos h]
    exact alookup_map_replace_self m k v h
  · rw [if_neg h]
    rw [alookup_append_none _ (alookup_of_not_amem (by simpa using h))]
    simp [alookup]

theorem ainsert_lookup_other {α : Type} (m : List (String × α)) (k p : String) (v : α)
    (h : k ≠ p) : alookup (ainsert m k v) p = alookup m p := by
  unfold ainsert
  by_cases hm : amem m k = true
  · rw [if_pos hm]
    exact alookup_map_replace m k p v h
  · rw [if_neg hm]
    by_cases hp : alookup m p = none
    · rw [alookup_append_none _ hp, hp]
      simp [alookup, h]
    · obtain ⟨w, hw⟩ := Option.ne_none_iff_exists'.mp hp
      rw [alookup_append_some _ hw, hw]

theorem ainsert_mem {α : Type} {m : List (String × α)} {k : String} {v : α}
    {q : String × α} (h : q ∈ ainsert m k v) : q ∈ m ∨ q.1 = k := by
  unfold ainsert at h
  by_cases hm : amem m k = true
  · rw [if_pos hm] at h
    obtain ⟨p, hp, hq⟩ := List.mem_map.mp h
    by_cases hpk : p.1 = k
    · right
      rw [if_pos hpk] at hq
      rw [← hq]
    · left
      rw [if_neg hpk] at hq
      rwa [← hq]
  · rw [if_neg hm] at h
    rcases List.mem_append.mp h with h1 | h1
    · exact Or.inl h1
    · right
      simp only [List.mem_singleton] at h1
      rw [h1]

theorem foldl_ainsert_mem {α : Type} (g : String → α) :
    ∀ (ps : List String) (m : List (String × α)) (q : String × α),
    q ∈ ps.foldl (fun m p => ainsert m p (g p)) m → q ∈ m ∨ q.1 ∈ ps := by
  intro ps
  induction ps with
  | nil => intro m q h; exact Or.inl h
  | cons p t ih =>
    intro m q h
    simp only [List.foldl_cons] at h
    rcases ih (ainsert m p (g p)) q h with h1 | h1
    · rcases ainsert_mem h1 with h2 | h2
      · exact Or.inl h2
      · exact Or.inr (by simp [h2])
    · exact Or.inr (List.mem_cons_of_mem p h1)

/-! ## Seeding-loop lemmas (`seedAll`) -/

theorem seedAll_cons (m : HashDict) (f : REntry) (t : List REntry) :
    seedAll m (f :: t) =
      seedAll (if dmem m f.full_path then m else m ++ [(f.full_path, f.hash)]) t := by
  simp only [seedAll, List.foldl_cons]

theorem seedAll_lookup_pres :
    ∀ (files : List REntry) (m : HashDict) (p : String), amem m p = true →
    alookup (seedAll m files) p = alookup m p := by
  intro files
  induction files with
  | nil => intro m p _; rfl
  | cons f t ih =>
    intro m p hp
    rw [seedAll_cons]
    by_cases hf : dmem m f.full_path = true
    · rw [if_pos hf]
      exact ih m p hp
    · rw [if_neg hf]
      obtain ⟨v, hv⟩ := alookup_of_amem hp
      have hpres : alookup (m ++ [(f.full_path, f.hash)]) p = alookup m p := by
        rw [alookup_append_some _ hv, hv]
      have hmem : amem (m ++ [(f.full_path, f.hash)]) p = true := by
        unfold amem
        rw [hpres]
        exact hp
      rw [ih _ p hmem, hpres]

theorem seedAll_lookup_mem :
    ∀ (files : List REntry) (m : HashDict) (f : REntry), f ∈ files →
    (∀ g ∈ files, g.full_path = f.full_path → g.hash = f.hash) →
    (alookup m f.full_path = none ∨ alookup m f.full_path = some f.hash) →
    alookup (seedAll m files) f.full_path = some f.hash := by
  intro files
  induction files with
  | nil => intro m f hf; exact absurd hf (List.not_mem_nil f)
  | cons g t ih =>
    intro m f hf hcoh hdisj
    rw [seedAll_cons]
    by_cases hg : dmem m g.full_path = true
    · rw [if_pos hg]
      rcases List.mem_cons.mp hf with he | ht
      · subst he
        obtain ⟨v, hv⟩ := alookup_of_amem hg
        have hv' : alookup m f.full_path = some f.hash := by
          rcases hdisj with h0 | h0
          · rw [h0] at hv
            exact absurd hv (by simp)
          · exact h0
        rw [seedAll_lookup_pres t m f.full_path hg]
        exact hv'
      · exact ih m f ht (fun g' hg' => hcoh g' (List.mem_cons_of_mem g hg')) hdisj
    · rw [if_neg hg]
      have hnone : alookup m g.full_path = none := alookup_of_not_amem (by simpa using hg)
      rcases List.mem_cons.mp hf with he | ht
      · subst he
        have hlook : alookup (m ++ [(f.full_path, f.hash)]) f.full_path = some f.hash := by
          rw [alookup_append_none _ hnone]
          simp [alookup]
        have hmem : amem (m ++ [(f.full_path, f.hash)]) f.full_path = true := by
          unfold amem
          rw [hlook]
          rfl
        rw [seedAll_lookup_pres t _ f.full_path hmem]
        exact hlook
      · apply ih (m ++ [(g.full_path, g.hash)]) f ht
          (fun g' hg' => hcoh g' (List.mem_cons_of_mem g hg'))
        by_cases hfp : g.full_path = f.full_path
        · right
          have hgh := hcoh g (List.mem_cons_self g t) hfp
          rw [alookup_append_none _ (by rw [← hfp] at hdisj ⊢; exact hnone)]
          simp [alookup, hfp, hgh]
        · rcases hdisj with h0 | h0
          · left
            rw [alookup_append_none _ h0]
            simp [alookup, hfp]
          · right
            rw [alookup_append_some _ h0]

theorem seedAll_mem :
    ∀ (files : List REntry) (m : HashDict) (q : String × String),
    q ∈ seedAll m files → q ∈ m ∨ q.1 ∈ files.map (·.full_path) := by
  intro files
  induction files with
  | nil => intro m q h; exact Or.inl h
  | cons f t ih =>
    intro m q h
    rw [seedAll_cons] at h
    by_cases hf : dmem m f.full_path = true
    · rw [if_pos hf] at h
      rcases ih m q h with h1 | h1
      · exact Or.inl h1
      · exact Or.inr (by simp [h1])
    · rw [if_neg hf] at h
      rcases ih _ q h with h1 | h1
      · rcases List.mem_append.mp h1 with h2 | h2
        · exact Or.inl h2
        · simp only [List.mem_singleton] at h2
          exact Or.inr (by simp [h2])
      · exact Or.inr (by simp [h1])

/-! ## Claim C9: reconciliation never targets manifest paths -/

/-- Claim C9: for every cache and manifest-entry list, the set of paths
the reconciler targets for deletion is disjoint from the manifest's
resolved local paths, and the list of targeted paths the reconciler
returns is exactly that candidate set. -/
theorem C9_reconciler_targets_disjoint_from_manifest :
    ∀ (hashes : HashDict) (patch_files : List REntry) (responses : List String) (fs : FS),
    (∀ p ∈ deleteList hashes patch_files, p ∉ patch_files.map (·.full_path)) ∧
    (∀ l fs', remove_redundant_files hashes patch_files responses fs = some (some l, fs') →
      l = deleteList hashes patch_files) := by
  intro hashes pfr responses fs
  constructor
  · intro p hp
    have hpred := List.of_mem_filter hp
    simpa using hpred
  · intro l fs' h
    simp only [remove_redundant_files] at h
    split at h
    · simp at h
    · split at h
      · exact absurd h (by simp)
      · simp at h
      · simp only [Option.some.injEq, Prod.mk.injEq] at h
        exact h.1.symm

/-- A concrete resolved manifest entry used in witnesses. -/
def e9 : REntry := { path := "a", url := "/a", hash := "h", size := 1, full_path := "/o/a" }

/-- Witness for C9 at a concrete cache/manifest/filesystem. -/
theorem C9_witness :
    ("/o/old" ∉ ([e9] : List REntry).map (·.full_path)) ∧
    (["/o/old"] : List String) = deleteList [("/o/a", "h"), ("/o/old", "h9")] [e9] := by
  refine ⟨?_, ?_⟩
  · exact (C9_reconciler_targets_disjoint_from_manifest
      [("/o/a", "h"), ("/o/old", "h9")] [e9] [] []).1 "/o/old" (by decide)
  · exact ((C9_reconciler_targets_disjoint_from_manifest
      [("/o/a", "h"), ("/o/old", "h9")] [e9] [] []).2 ["/o/old"] [] (by decide))

/-! ## Claim C6: declined confirmation blocks mass deletion -/

/-- Claim C6: when the reconciler computes more than 10 deletion
candidates it consults the confirmation prompt with default answer
"no" (an empty operator reply declines), and a declined prompt makes it
return `None` with the filesystem untouched (the cache dict is never
written by the reconciler at all). -/
theorem C6_decline_blocks_mass_deletion :
    ∀ (hashes : HashDict) (patch_files : List REntry) (responses rest : List String) (fs : FS),
    ((deleteList hashes patch_files).length > 10 →
      confirmRun (some false) responses = some false →
      remove_redundant_files hashes patch_files responses fs = some (none, fs)) ∧
    confirmRun (some false) ("" :: rest) = some false := by
  intro hashes pfr responses rest fs
  constructor
  · intro hlen hconf
    have h0 : ¬ (deleteList hashes pfr = []) := by
      intro h0
      rw [h0] at hlen
      simp at hlen
    unfold remove_redundant_files
    rw [if_neg h0]
    simp only [if_pos hlen, hconf]
  · rfl

/-- Concrete cache with 11 entries none of which is a manifest path. -/
def c6cache : HashDict :=
  [("k1", "h"), ("k2", "h"), ("k3", "h"), ("k4", "h"), ("k5", "h"), ("k6", "h"),
   ("k7", "h"), ("k8", "h"), ("k9", "h"), ("k10", "h"), ("k11", "h")]

/-- Witness for C6: 11 candidates, the operator answers "no". -/
theorem C6_witness :
    (deleteList c6cache []).length > 10 ∧
    remove_redundant_files c6cache [] ["no"] [("k1", ⟨1, "h"⟩)] =
      some (none, [("k1", ⟨1, "h"⟩)]) ∧
    confirmRun (some false) ("" :: []) = some false := by
  refine ⟨by decide, ?_, ?_⟩
  · exact (C6_decline_blocks_mass_deletion c6cache [] ["no"] [] [("k1", ⟨1, "h"⟩)]).1
      (by decide) (by decide)
  · exact (C6_decline_blocks_mass_deletion c6cache [] ["no"] [] [("k1", ⟨1, "h"⟩)]).2

/-! ## Claim C7: maintenance marker short-circuits the run -/

theorem mainFinish_manifestFetched (w : World) (pfr : List REntry) (h1 : HashDict)
    (ca : Option HashDict) (remove : Bool) (fs : FS) (nf : Option HashDict) :
    (mainFinish w pfr h1 ca remove fs nf).manifestFetched = true := by
  unfold mainFinish
  split
  · split
    · rfl
    · rfl
  · rfl

/-- Claim C7: when the probe of `root_domain/MaintenanceLock.lck`
returns HTTP 200, `main` returns `(None, None)` without fetching the
manifest, without touching the filesystem and without touching the
caller's hash cache; any other status code proceeds to the manifest
fetch. -/
theorem C7_maintenance_short_circuit :
    ∀ (w : World) (rd od : String) (v : Bool) (h : Option HashDict) (rf : Option Bool),
    (w.maintenanceStatus = 200 →
      main w rd od v h rf =
        { newFiles := none, deletedFiles := none, err := none, fs := w.fs,
          cacheAfter := h, manifestFetched := false }) ∧
    (w.maintenanceStatus ≠ 200 → (main w rd od v h rf).manifestFetched = true) := by
  intro w rd od v h rf
  constructor
  · intro h200
    unfold main
    rw [if_pos (by simp [check_maintenence, h200])]
  · intro hne
    unfold main
    rw [if_neg (show ¬ (check_maintenence w.maintenanceStatus = true) by
      simp only [check_maintenence, beq_iff_eq]
      exact hne)]
    rcases hrp : read_patchlist w.manifest with e | pf
    · rfl
    · dsimp only
      split
      · split
        · rfl
        · exact mainFinish_manifestFetched ..
      · exact mainFinish_manifestFetched ..

/-- A world under maintenance. -/
def w200 : World :=
  { maintenanceStatus := 200
    manifest := "/a.txt,h1,5"
    fs := [("/o/a.txt", ⟨5, "h1"⟩)]
    net := fun _ => .error ()
    responses := [] }

/-- Witness for C7: a concrete world under maintenance, and the same
world with status 404. -/
theorem C7_witness :
    main w200 "r" "/o" false (some [("c", "h")]) (some true) =
      { newFiles := none, deletedFiles := none, err := none, fs := w200.fs,
        cacheAfter := some [("c", "h")], manifestFetched := false } ∧
    (main { w200 with maintenanceStatus := 404 } "r" "/o" false none none).manifestFetched
      = true := by
  constructor
  · exact (C7_maintenance_short_circuit w200 "r" "/o" false (some [("c", "h")])
      (some true)).1 rfl
  · exact (C7_maintenance_short_circuit { w200 with maintenanceStatus := 404 }
      "r" "/o" false none none).2 (by decide)

/-! ## Claim C1: deleted hashes are never returned -/

/-- A world in which the manifest file is intact on disk and the cache
holds one extra path. -/
def w1 : World :=
  { maintenanceStatus := 404
    manifest := "/a.txt,h1,5"
    fs := [("/o/a.txt", ⟨5, "h1"⟩), ("/o/old", ⟨3, "h9"⟩)]
    net := fun _ => .error ()
    responses := [] }

def cache1 : HashDict := [("/o/a.txt", "h1"), ("/o/old", "h9")]

/-- Claim C1 (code bug): in a run where the reconciler removes
`/o/old` from disk and returns it as targeted (its cached hash `h9` is
available), `main` still returns `deleted_files = None`, because
dd.py line 330 tests `deleted_files is not None` (always false at that
point) instead of `deleted is not None`. -/
theorem C1_deleted_hashes_never_returned :
    main w1 "r" "/o" false (some cache1) (some true) =
      { newFiles := none, deletedFiles := none, err := none,
        fs := [("/o/a.txt", ⟨5, "h1"⟩)], cacheAfter := some cache1,
        manifestFetched := true } ∧
    remove_redundant_files cache1
      (calc_full_paths "/o" [{ path := "a.txt", url := "/a.txt", hash := "h1", size := 5 }])
      [] w1.fs = some (some ["/o/old"], [("/o/a.txt", ⟨5, "h1"⟩)]) ∧
    dlookup cache1 "/o/old" = some "h9" := by
  refine ⟨by decide, by decide, by decide⟩

/-! ## Claim C5: hashing fallback -/

/-- A tool whose stdout repr has no space to split on (malformed
output). -/
def cexTool5 : String → List String × String := fun _ => ([], "nospace")

/-- A tool that writes to stderr (the failure `_sha256sum` detects). -/
def errTool5 : String → List String × String := fun _ => (["boom"], "")

def cexHasher5 : String → String := fun _ => "hf"

/-- Counterexample to C5: on Linux, malformed tool output (no space in
the stdout repr) raises an uncaught `IndexError` instead of falling
back to the portable hasher, whose result would have been
`[("f", "hf")]`. -/
theorem C5_cex_malformed_output_raises :
    get_sha256_hash "Linux" cexTool5 cexHasher5 ["f"] = .error .indexError ∧
    hasherDict cexHasher5 ["f"] = [("f", "hf")] := by
  exact ⟨rfl, rfl⟩

/-- Claim C5 as amended: a native-tool failure signalled by stderr
output (raised as `ChildProcessError`) makes `get_sha256_hash` fall
back to the portable implementation for the whole batch and return its
mapping with no error surfaced. -/
theorem C5_fallback_on_childprocess :
    ∀ (system : String) (tool : String → List String × String)
      (hasher : String → String) (files : List String),
    system = "Darwin" ∨ system = "Linux" →
    sha256sum tool files [] = .error .childProcess →
    get_sha256_hash system tool hasher files = .ok (hasherDict hasher files) := by
  intro system tool hasher files hsys htool
  unfold get_sha256_hash
  rw [if_pos hsys, htool]

/-- Witness for C5 at a concrete failing tool. -/
theorem C5_witness :
    (("Linux" : String) = "Darwin" ∨ ("Linux" : String) = "Linux") ∧
    sha256sum errTool5 ["f"] [] = .error .childProcess ∧
    get_sha256_hash "Linux" errTool5 cexHasher5 ["f"] =
      .ok (hasherDict cexHasher5 ["f"]) := by
  refine ⟨Or.inr rfl, rfl, ?_⟩
  exact C5_fallback_on_childprocess "Linux" errTool5 cexHasher5 ["f"] (Or.inr rfl) rfl

/-! ## Claim C2: shape of the stale list -/

/-- Entry whose file is missing on disk and whose cached hash is stale. -/
def e2a : REntry := { path := "a", url := "/a", hash := "new", size := 5, full_path := "p" }

/-- Entry present on disk with matching size but a stale cached hash. -/
def e1b : REntry := { path := "a", url := "/a", hash := "h1", size := 1, full_path := "pa" }

/-- Entry missing on disk. -/
def e2b : REntry := { path := "b", url := "/b", hash := "h2", size := 1, full_path := "pb" }

/-- Counterexample to C2: an entry flagged in step 1 whose cached hash
also mismatches appears twice in the stale list, and a step-4-only entry
is emitted after a later step-1 entry, so the list is not a
manifest-order subsequence. -/
theorem C2_cex_duplicate_entry_and_order :
    ((check_files [] [e2a] false (some [("p", "old")])).1).count e2a = 2 ∧
    (check_files [("pa", ⟨1, "zz"⟩)] [e1b, e2b] false (some [("pa", "old")])).1 =
      [e2b, e1b] ∧
    e1b ≠ e2b := by
  refine ⟨by decide, by decide, by decide⟩

/-- Claim C2 as amended: every element of the stale list is an input
entry, and the list is the step-1-flagged entries (in manifest order)
followed by the entries whose cache value mismatches (in manifest
order); step-1 entries are excluded from hashing, but they are compared
against the cache again, so when the input entries have pairwise
distinct resolved paths each entry appears at most twice. -/
theorem C2_stale_list_structure :
    ∀ (fs : FS) (files : List REntry) (validate : Bool) (H0 : Option HashDict),
    (∀ e ∈ (check_files fs files validate H0).1, e ∈ files) ∧
    (check_files fs files validate H0).1 =
      step1Invalid fs files ++ cacheInvalid (check_files fs files validate H0).2 files ∧
    ((files.map (·.full_path)).Nodup →
      (∀ e, ((check_files fs files validate H0).1).count e ≤ 2) ∧
      (∀ e ∈ step1Invalid fs files, e.full_path ∉ validateTargets fs files)) := by
  intro fs files validate H0
  refine ⟨?_, rfl, ?_⟩
  · intro e he
    rcases List.mem_append.mp he with h1 | h1
    · exact List.mem_of_mem_filter h1
    · exact List.mem_of_mem_filter h1
  · intro hnd
    have hndf : files.Nodup := List.Nodup.of_map _ hnd
    constructor
    · intro e
      rw [show (check_files fs files validate H0).1 =
        step1Invalid fs files ++ cacheInvalid (check_files fs files validate H0).2 files
        from rfl]
      rw [List.count_append]
      have h1 : (step1Invalid fs files).Nodup := List.Nodup.filter _ hndf
      have h2 : (cacheInvalid (check_files fs files validate H0).2 files).Nodup :=
        List.Nodup.filter _ hndf
      have c1 := List.nodup_iff_count_le_one.mp h1 e
      have c2 := List.nodup_iff_count_le_one.mp h2 e
      calc List.count e (step1Invalid fs files) +
            List.count e (cacheInvalid (check_files fs files validate H0).2 files) ≤ 1 + 1 :=
              Nat.add_le_add c1 c2
        _ = 2 := rfl
    · intro e he hmem
      obtain ⟨g, hg, hgp⟩ := List.mem_map.mp hmem
      have hgf : g ∈ files := List.mem_of_mem_filter hg
      have hef : e ∈ files := List.mem_of_mem_filter he
      have hge : g = e := List.inj_on_of_nodup_map hnd hgf hef hgp
      have hgpred := List.of_mem_filter hg
      rw [hge] at hgpred
      simp only [Bool.not_eq_true', decide_eq_false_iff_not] at hgpred
      exact hgpred he

/-- Witness for C2 at a concrete input with distinct paths. -/
theorem C2_witness :
    (∀ e, ((check_files [] [e2a] false none).1).count e ≤ 2) ∧
    (∀ e ∈ step1Invalid [] [e2a], e.full_path ∉ validateTargets [] [e2a]) :=
  (C2_stale_list_structure [] [e2a] false none).2.2 (by decide)

/-! ## Claim C4: idempotence of staleness detection -/

/-- Entry whose file is missing on disk. -/
def e4a : REntry := { path := "a", url := "/a", hash := "ha", size := 1, full_path := "/o/a" }

/-- Entry present with the right size but a stale cached hash. -/
def e4b : REntry := { path := "b", url := "/b", hash := "new", size := 1, full_path := "/o/b" }

/-- Counterexample to C4: with an entry whose file is missing on disk
(and no filesystem change between the runs), or with an incoming cache
value that differs from the expected hash, the second run of
`check_files` with `validate=False` is again non-empty. -/
theorem C4_cex_second_run_not_empty :
    (check_files [] [e4a] false (some ((check_files [] [e4a] false none).2))).1 ≠ [] ∧
    (check_files [("/o/b", ⟨1, "x"⟩)] [e4b] false
      (some ((check_files [("/o/b", ⟨1, "x"⟩)] [e4b] false
        (some [("/o/b", "old")])).2))).1 ≠ [] := by
  refine ⟨by decide, by decide⟩

/-- Claim C4 as amended: if the step-1 filesystem check flags nothing
(every file exists with the expected size), the incoming cache has no
value conflicting with an entry's expected hash, and entries sharing a
resolved path share their expected hash, then running `check_files`
with `validate=False`, feeding the updated cache back in unchanged,
yields an empty stale set the second time. -/
theorem C4_second_run_empty_when_intact :
    ∀ (fs : FS) (files : List REntry) (H0 : Option HashDict),
    step1Invalid fs files = [] →
    (∀ f ∈ files, alookup (H0.getD []) f.full_path = none ∨
                  alookup (H0.getD []) f.full_path = some f.hash) →
    (∀ f ∈ files, ∀ g ∈ files, g.full_path = f.full_path → g.hash = f.hash) →
    (check_files fs files false (some ((check_files fs files false H0).2))).1 = [] := by
  intro fs files H0 hstep1 hcache hcoh
  have hH1 : (check_files fs files false H0).2 = seedAll (H0.getD []) files := rfl
  have hlook1 : ∀ f ∈ files,
      alookup ((check_files fs files false H0).2) f.full_path = some f.hash := by
    intro f hf
    rw [hH1]
    exact seedAll_lookup_mem files (H0.getD []) f hf (fun g hg => hcoh f hf g hg)
      (hcache f hf)
  have hlook2 : ∀ f ∈ files,
      alookup (seedAll ((check_files fs files false H0).2) files) f.full_path
        = some f.hash := by
    intro f hf
    exact seedAll_lookup_mem files _ f hf (fun g hg => hcoh f hf g hg)
      (Or.inr (hlook1 f hf))
  have hcinv :
      cacheInvalid (seedAll ((check_files fs files false H0).2) files) files = [] := by
    apply List.filter_eq_nil_iff.mpr
    intro f hf
    simp [hlook2 f hf]
  show step1Invalid fs files ++
    cacheInvalid (seedAll ((check_files fs files false H0).2) files) files = []
  rw [hstep1, hcinv]
  rfl

/-- Intact entry for the C4 witness. -/
def e4w : REntry := { path := "a", url := "/a", hash := "h", size := 1, full_path := "/o/a" }

/-- Witness for C4: a file present with the expected size, empty
incoming cache. -/
theorem C4_witness :
    (check_files [("/o/a", ⟨1, "h"⟩)] [e4w] false
      (some ((check_files [("/o/a", ⟨1, "h"⟩)] [e4w] false none).2))).1 = [] := by
  apply C4_second_run_empty_when_intact [("/o/a", ⟨1, "h"⟩)] [e4w] none
  · decide
  · intro f hf
    simp only [List.mem_singleton] at hf
    subst hf
    left
    rfl
  · intro f hf g hg hp
    simp only [List.mem_singleton] at hf hg
    subst hf
    subst hg
    rfl

/-! ## Claim C10: validate-run cache keys and reconciliation no-op -/

/-- Claim C10: after `check_files` with `validate=True`, every key of
the returned hash map is the resolved local path of some input entry
(incoming cache entries for other paths are dropped), so the reconciler
run on that map against the same entries computes zero deletion
candidates and returns `None` without touching the filesystem. -/
theorem C10_validate_keys_and_reconcile_noop :
    ∀ (fs : FS) (files : List REntry) (H0 : Option HashDict) (responses : List String),
    (∀ kv ∈ (check_files fs files true H0).2, kv.1 ∈ files.map (·.full_path)) ∧
    deleteList (check_files fs files true H0).2 files = [] ∧
    remove_redundant_files (check_files fs files true H0).2 files responses fs =
      some (none, fs) := by
  intro fs files H0 responses
  have hkeys : ∀ kv ∈ (check_files fs files true H0).2,
      kv.1 ∈ files.map (·.full_path) := by
    intro kv hkv
    have hseed : kv ∈ seedAll (hasherDictFS fs (validateTargets fs files)) files := hkv
    rcases seedAll_mem files _ kv hseed with h1 | h1
    · have h2 := foldl_ainsert_mem (fsHash fs) (validateTargets fs files) [] kv h1
      rcases h2 with h3 | h3
      · exact absurd h3 (List.not_mem_nil kv)
      · obtain ⟨g, hg, hgp⟩ := List.mem_map.mp h3
        exact List.mem_map.mpr ⟨g, List.mem_of_mem_filter hg, hgp⟩
    · exact h1
  have hdel : deleteList (check_files fs files true H0).2 files = [] := by
    apply List.filter_eq_nil_iff.mpr
    intro k hk
    obtain ⟨kv, hkv, hkveq⟩ := List.mem_map.mp hk
    have hin := hkeys kv hkv
    rw [hkveq] at hin
    simp [hin]
  refine ⟨hkeys, hdel, ?_⟩
  simp [remove_redundant_files, hdel]

/-- Witness for C10 at a concrete filesystem, entry list and junk-laden
incoming cache. -/
theorem C10_witness :
    (∀ kv ∈ (check_files [("/o/a", ⟨1, "x"⟩)] [e9] true (some [("junk", "j")])).2,
      kv.1 ∈ [e9].map (·.full_path)) ∧
    deleteList (check_files [("/o/a", ⟨1, "x"⟩)] [e9] true (some [("junk", "j")])).2
      [e9] = [] ∧
    remove_redundant_files
      (check_files [("/o/a", ⟨1, "x"⟩)] [e9] true (some [("junk", "j")])).2 [e9] []
      [("/o/a", ⟨1, "x"⟩)] = some (none, [("/o/a", ⟨1, "x"⟩)]) :=
  C10_validate_keys_and_reconcile_noop [("/o/a", ⟨1, "x"⟩)] [e9] (some [("junk", "j")]) []

/-! ## Claim C3: download failure isolation -/

/-- Sequential composition of the per-task downloads when every chunk is
a single task (batches of at most 16 entries). -/
def seqFold (net : String → Except Unit FSEntry) (pr : String) :
    List REntry → FS × Bool → FS × Bool
  | [], acc => acc
  | f :: t, acc =>
    match net (pr ++ f.url) with
    | .error _ => seqFold net pr t (acc.1, true)
    | .ok d => seqFold net pr t (fsWrite acc.1 f.full_path d, acc.2)

theorem chunkSizeFor_small (n : Nat) (h1 : 1 ≤ n) (h16 : n ≤ 16) :
    chunkSizeFor n = 1 := by
  unfold chunkSizeFor
  rw [if_neg (by omega)]
  rcases Nat.lt_or_ge n 16 with h | h
  · rw [Nat.div_eq_of_lt h, Nat.mod_eq_of_lt h, if_neg (by omega)]
  · have h16' : n = 16 := Nat.le_antisymm h16 h
    subst h16'
    rfl

theorem chunkListAux_one :
    ∀ (l : List REntry), chunkListAux 1 l.length l = l.map (fun a => [a]) := by
  intro l
  induction l with
  | nil => rfl
  | cons a t ih =>
    show chunkListAux 1 (t.length + 1) (a :: t) = [a] :: t.map (fun a => [a])
    unfold chunkListAux
    simp only [List.take, List.drop]
    rw [ih]

theorem runChunk_singleton (net : String → Except Unit FSEntry) (pr : String)
    (fs : FS) (f : REntry) :
    runChunk net pr fs [f] =
      match net (pr ++ f.url) with
      | .error _ => (fs, true)
      | .ok d => (fsWrite fs f.full_path d, false) := by
  cases hn : net (pr ++ f.url) <;> simp [runChunk, hn]

theorem foldl_singleton_seq (net : String → Except Unit FSEntry) (pr : String) :
    ∀ (files : List REntry) (acc : FS × Bool),
    (files.map (fun a => [a])).foldl
      (fun acc c =>
        let r := runChunk net pr acc.1 c
        (r.1, acc.2 || r.2)) acc
    = seqFold net pr files acc := by
  intro files
  induction files with
  | nil => intro acc; rfl
  | cons f t ih =>
    intro acc
    simp only [List.map_cons, List.foldl_cons]
    rw [runChunk_singleton]
    cases hn : net (pr ++ f.url) with
    | error e => simp only [seqFold, hn, Bool.or_true, ih]
    | ok d => simp only [seqFold, hn, Bool.or_false, ih]

theorem update_files_seq (net : String → Except Unit FSEntry) (pr : String)
    (fs : FS) (files : List REntry) (h16 : files.length ≤ 16) :
    update_files net pr fs files = seqFold net pr files (fs, false) := by
  cases files with
  | nil => rfl
  | cons f t =>
    unfold update_files
    rw [chunkSizeFor_small (f :: t).length (by simp) h16]
    rw [chunkListAux_one]
    exact foldl_singleton_seq net pr (f :: t) (fs, false)

theorem seqFold_lookup_untouched (net : String → Except Unit FSEntry) (pr : String) :
    ∀ (files : List REntry) (acc : FS × Bool) (p : String),
    (∀ e ∈ files, e.full_path ≠ p) →
    alookup ((seqFold net pr files acc).1) p = alookup acc.1 p := by
  intro files
  induction files with
  | nil => intro acc p _; rfl
  | cons f t ih =>
    intro acc p hne
    cases hn : net (pr ++ f.url) with
    | error e =>
      simp only [seqFold, hn]
      exact ih (acc.1, true) p (fun e' he' => hne e' (List.mem_cons_of_mem f he'))
    | ok d =>
      simp only [seqFold, hn]
      rw [ih (fsWrite acc.1 f.full_path d, acc.2) p
        (fun e' he' => hne e' (List.mem_cons_of_mem f he'))]
      exact ainsert_lookup_other acc.1 f.full_path p d
        (hne f (List.mem_cons_self f t))

theorem seqFold_lookup_ok (net : String → Except Unit FSEntry) (pr : String) :
    ∀ (files : List REntry) (acc : FS × Bool) (f : REntry) (d : FSEntry),
    f ∈ files →
    (files.map (·.full_path)).Nodup →
    net (pr ++ f.url) = .ok d →
    alookup ((seqFold net pr files acc).1) f.full_path = some d := by
  intro files
  induction files with
  | nil => intro acc f d hf; exact absurd hf (List.not_mem_nil f)
  | cons g t ih =>
    intro acc f d hf hnd hok
    have hmap : (g.full_path :: t.map (·.full_path)).Nodup := by simpa using hnd
    have hnd' := List.nodup_cons.mp hmap
    rcases List.mem_cons.mp hf with he | ht
    · subst he
      simp only [seqFold, hok]
      have huntouched : ∀ e ∈ t, e.full_path ≠ f.full_path := by
        intro e he hep
        exact hnd'.1 (List.mem_map.mpr ⟨e, he, hep⟩)
      rw [seqFold_lookup_untouched net pr t _ f.full_path huntouched]
      exact ainsert_lookup_self acc.1 f.full_path d
    · cases hn : net (pr ++ g.url) with
      | error e =>
        simp only [seqFold, hn]
        exact ih (acc.1, true) f d ht hnd'.2 hok
      | ok d' =>
        simp only [seqFold, hn]
        exact ih (fsWrite acc.1 g.full_path d', acc.2) f d ht hnd'.2 hok

theorem update_invalid_files_err (net : String → Except Unit FSEntry) (fs : FS)
    (files : List REntry) (pr : String)
    (h : (update_files net pr fs files).2 = true) :
    update_invalid_files net fs files pr = ((update_files net pr fs files).1, .error ()) := by
  simp only [update_invalid_files, h, if_true]

def c3f0 : REntry := { path := "0", url := "/0", hash := "h", size := 1, full_path := "/o/0" }

def c3f1 : REntry := { path := "1", url := "/1", hash := "h", size := 1, full_path := "/o/1" }

def c3f2 : REntry := { path := "2", url := "/2", hash := "h", size := 1, full_path := "/o/2" }

def c3f3 : REntry := { path := "3", url := "/3", hash := "h", size := 1, full_path := "/o/3" }

def c3f4 : REntry := { path := "4", url := "/4", hash := "h", size := 1, full_path := "/o/4" }

def c3f5 : REntry := { path := "5", url := "/5", hash := "h", size := 1, full_path := "/o/5" }

def c3f6 : REntry := { path := "6", url := "/6", hash := "h", size := 1, full_path := "/o/6" }

def c3f7 : REntry := { path := "7", url := "/7", hash := "h", size := 1, full_path := "/o/7" }

def c3f8 : REntry := { path := "8", url := "/8", hash := "h", size := 1, full_path := "/o/8" }

def c3f9 : REntry := { path := "9", url := "/9", hash := "h", size := 1, full_path := "/o/9" }

def c3f10 : REntry := { path := "10", url := "/10", hash := "h", size := 1, full_path := "/o/10" }

def c3f11 : REntry := { path := "11", url := "/11", hash := "h", size := 1, full_path := "/o/11" }

def c3f12 : REntry := { path := "12", url := "/12", hash := "h", size := 1, full_path := "/o/12" }

def c3f13 : REntry := { path := "13", url := "/13", hash := "h", size := 1, full_path := "/o/13" }

def c3f14 : REntry := { path := "14", url := "/14", hash := "h", size := 1, full_path := "/o/14" }

def c3f15 : REntry := { path := "15", url := "/15", hash := "h", size := 1, full_path := "/o/15" }

def c3f16 : REntry := { path := "16", url := "/16", hash := "h", size := 1, full_path := "/o/16" }

/-- A batch of 17 stale entries (one more than the 16 tasks per chunk
boundary, so the pool chunk size becomes 2). -/
def cexFiles3 : List REntry := [c3f0, c3f1, c3f2, c3f3, c3f4, c3f5, c3f6, c3f7, c3f8, c3f9, c3f10, c3f11, c3f12, c3f13, c3f14, c3f15, c3f16]

/-- A network on which only the first entry's download raises. -/
def cexNet3 : String → Except Unit FSEntry :=
  fun u => if u = "r/Patch/0" then .error () else .ok ⟨1, "h"⟩

/-- Counterexample to C3: with 17 stale entries the pool chunk size is
2; the failure of entry 0 skips entry 1 in the same chunk even though
its download would succeed (entries of other chunks complete), and the
failure is re-raised after the batch, so `update_invalid_files`
propagates an exception instead of reporting a non-fatal per-file
error. -/
theorem C3_cex_chunk_skip_and_abort :
    (update_files cexNet3 "r/Patch" [] cexFiles3).2 = true ∧
    cexNet3 "r/Patch/1" = .ok ⟨1, "h"⟩ ∧
    fsLookup (update_files cexNet3 "r/Patch" [] cexFiles3).1 "/o/1" = none ∧
    fsLookup (update_files cexNet3 "r/Patch" [] cexFiles3).1 "/o/2" = some ⟨1, "h"⟩ ∧
    update_invalid_files cexNet3 [] cexFiles3 "r/Patch" =
      ((update_files cexNet3 "r/Patch" [] cexFiles3).1, .error ()) := by
  refine ⟨by decide, rfl, by decide, by decide, ?_⟩
  exact update_invalid_files_err cexNet3 [] cexFiles3 "r/Patch" (by decide)

/-- Claim C3 as amended: for batches of at most 16 stale entries (chunk
size 1) with pairwise distinct resolved paths, a failure downloading one
entry does not prevent any other entry from being attempted and
completing; in all cases the first failure is re-raised once the batch
has finished, aborting `update_invalid_files` (and with it the run)
rather than being surfaced as a non-fatal per-file error. -/
theorem C3_download_isolation_and_abort :
    ∀ (net : String → Except Unit FSEntry) (pr : String) (fs : FS) (files : List REntry),
    files.length ≤ 16 →
    (files.map (·.full_path)).Nodup →
    (∀ f ∈ files, ∀ d, net (pr ++ f.url) = .ok d →
      fsLookup (update_files net pr fs files).1 f.full_path = some d) ∧
    ((update_files net pr fs files).2 = true →
      update_invalid_files net fs files pr =
        ((update_files net pr fs files).1, .error ())) := by
  intro net pr fs files h16 hnd
  constructor
  · intro f hf d hok
    rw [update_files_seq net pr fs files h16]
    exact seqFold_lookup_ok net pr files (fs, false) f d hf hnd hok
  · intro herr
    exact update_invalid_files_err net fs files pr herr

def wdl1 : REntry := { path := "a", url := "/a", hash := "h", size := 1, full_path := "/o/a" }

def wdl2 : REntry := { path := "b", url := "/b", hash := "h", size := 1, full_path := "/o/b" }

def wnet3 : String → Except Unit FSEntry := fun _ => .ok ⟨1, "h"⟩

/-- Witness for C3 on a 2-entry batch where both downloads succeed. -/
theorem C3_witness :
    fsLookup (update_files wnet3 "r" [] [wdl1, wdl2]).1 wdl2.full_path = some ⟨1, "h"⟩ :=
  (C3_download_isolation_and_abort wnet3 "r" [] [wdl1, wdl2] (by decide) (by decide)).1
    wdl2 (by decide) ⟨1, "h"⟩ rfl

/-! ## Claim C8: manifest-reader shape -/

/-- What one kept manifest line yields (the amended reading): exactly 3
comma fields, the backslash-converted path token with its first
character removed (then `Path`-normalized) as relative path, the token
itself as URL suffix, and an integer-parsed size whose failure is
fatal. -/
def lineSpec (i : List String) (e : Entry) : Prop :=
  ∃ p h3 sz, i = [p, h3, sz] ∧ pyInt? sz = some e.size ∧
    e.path = normalizePath (String.mk (p.data.drop 1)) ∧ e.url = p ∧ e.hash = h3

theorem length_three_decomp (i : List String) (h : i.length = 3) :
    ∃ p h3 sz, i = [p, h3, sz] := by
  rcases i with _ | ⟨p, _ | ⟨q, _ | ⟨r, _ | ⟨x, t⟩⟩⟩⟩
  · simp at h
  · simp at h
  · simp at h
  · exact ⟨p, q, r, rfl⟩
  · simp at h

theorem parsedLines_len3 (content : String) :
    ∀ i ∈ parsedLines content, i.length = 3 := by
  intro i hi
  have hpred := List.of_mem_filter hi
  simpa using hpred

theorem buildEntries_spec :
    ∀ (ls : List (List String)) (es : List Entry),
    (∀ i ∈ ls, i.length = 3) →
    buildEntries ls = some es →
    List.Forall₂ lineSpec ls es := by
  intro ls
  induction ls with
  | nil =>
    intro es _ h
    simp only [buildEntries, Option.some.injEq] at h
    subst h
    exact List.Forall₂.nil
  | cons i t ih =>
    intro es hlen h
    unfold buildEntries at h
    cases hme : mkEntry i with
    | none =>
      rw [hme] at h
      simp at h
    | some e =>
      rw [hme] at h
      obtain ⟨ts, hts, hes⟩ := Option.map_eq_some'.mp h
      subst hes
      refine List.Forall₂.cons ?_
        (ih ts (fun j hj => hlen j (List.mem_cons_of_mem i hj)) hts)
      obtain ⟨p, h3, sz, hi⟩ := length_three_decomp i (hlen i (List.mem_cons_self i t))
      subst hi
      simp only [mkEntry] at hme
      obtain ⟨n, hn, he⟩ := Option.map_eq_some'.mp hme
      subst he
      exact ⟨p, h3, sz, rfl, hn, rfl, rfl, rfl⟩

theorem buildEntries_none_of_bad :
    ∀ (ls : List (List String)) (p h3 sz : String),
    [p, h3, sz] ∈ ls → pyInt? sz = none → buildEntries ls = none := by
  intro ls
  induction ls with
  | nil => intro p h3 sz hm; exact absurd hm (List.not_mem_nil _)
  | cons i t ih =>
    intro p h3 sz hm hbad
    rcases List.mem_cons.mp hm with he | ht
    · rw [← he]
      unfold buildEntries
      rw [show mkEntry [p, h3, sz] = none by simp [mkEntry, hbad]]
    · unfold buildEntries
      cases hme : mkEntry i with
      | none => rfl
      | some e =>
        rw [ih p h3 sz ht hbad]
        rfl

theorem read_patchlist_ok (content : String) (es : List Entry)
    (h : read_patchlist content = .ok es) :
    buildEntries (parsedLines content) = some es := by
  unfold read_patchlist at h
  cases hb : buildEntries (parsedLines content) with
  | none =>
    rw [hb] at h
    simp at h
  | some es' =>
    rw [hb] at h
    simp only [Except.ok.injEq] at h
    rw [h]

/-- Claim C8 as amended: the manifest reader excludes every line that
does not split into exactly 3 comma fields; every included line yields
an entry whose relative path is the backslash-converted token with its
first character removed and the result normalized as a POSIX path (the
first character is removed whether or not it is a separator); a
three-field line whose size does not parse as an integer is fatal. -/
theorem C8_parser_shape :
    ∀ (content : String) (es : List Entry),
    (read_patchlist content = .ok es →
      List.Forall₂ lineSpec (parsedLines content) es) ∧
    ((∃ p h3 sz, [p, h3, sz] ∈ parsedLines content ∧ pyInt? sz = none) →
      read_patchlist content = .error ()) := by
  intro content es
  constructor
  · intro h
    exact buildEntries_spec (parsedLines content) es (parsedLines_len3 content)
      (read_patchlist_ok content es h)
  · rintro ⟨p, h3, sz, hm, hbad⟩
    unfold read_patchlist
    rw [buildEntries_none_of_bad (parsedLines content) p h3 sz hm hbad]

/-- Counterexample to C8 as stated: on the line `abc,h,3` the path token
has no leading separator, yet the code removes its first character,
producing `bc` rather than `abc`; and on `/a//b,h,3` the stored relative
path is the `Path`-normalized `a/b`, not the stripped token `a//b`. -/
theorem C8_cex_first_char_and_normalization :
    read_patchlist "abc,h,3" =
      .ok [{ path := "bc", url := "abc", hash := "h", size := 3 }] ∧
    ("bc" : String) ≠ "abc" ∧
    read_patchlist "/a//b,h,3" =
      .ok [{ path := "a/b", url := "/a//b", hash := "h", size := 3 }] ∧
    ("a/b" : String) ≠ "a//b" := by
  refine ⟨rfl, by decide, rfl, by decide⟩

def w8e : Entry := { path := "a.txt", url := "/a.txt", hash := "h1", size := 5 }

/-- Witness for C8: a well-formed one-line manifest, and a three-field
line with an unparseable size. -/
theorem C8_witness :
    List.Forall₂ lineSpec (parsedLines "/a.txt,h1,5") [w8e] ∧
    read_patchlist "/x,h,zz" = .error () := by
  constructor
  · exact (C8_parser_shape "/a.txt,h1,5" [w8e]).1 rfl
  · exact (C8_parser_shape "/x,h,zz" []).2 ⟨"/x", "h", "zz", by decide, by decide⟩

end DD
